import Mathlib

/-!
# Verification of the SymptomSentinelAI model registry and inference core

Shallow embedding of `src/backend/ml/enhanced_model_loader.py`,
`src/backend/ml/enhanced_image_analyzer.py` and
`src/backend/ml/binary_classifier.py`.

Modelling conventions:
* Python `dict`s (which preserve insertion order, update values in place)
  become association lists `List (String × α)` with `dlookup` / `dinsert`.
* Python `float` becomes `ℚ` (exact arithmetic; the float literals of the
  source, e.g. `0.15`, `0.3`, become the corresponding rationals).
* Exceptions become an error sum type `PyError`; stateful methods of the
  `ModelRegistry` singleton return `Except (PyError × RegState) ...` where the
  error carries the state at raise time, so that non-mutation on failure is a
  provable fact rather than an artefact of the encoding.
* The external TensorFlow backend (`tf.keras.models.load_model`,
  `_create_model`, `model.save`) is abstracted: loading or building a single
  model always succeeds and yields a fresh opaque predictor handle, modelled
  by a counter `next_id` in the state.  Only the identity of handles matters
  to the claims under study.
* `np.argsort` (ascending, then reversed by `[::-1]` in the source) is
  modelled by the stable `List.insertionSort`.  NumPy's default sort is an
  introsort that is an (stable) insertion sort below 16 elements; the
  condition catalogs of this repository have 5 labels each, so the stable
  model coincides with NumPy's behaviour on every reachable input.
-/

/-- Lookup in a Python dict modelled as an association list. -/
def dlookup {α : Type} : List (String × α) → String → Option α
  | [], _ => none
  | (k, v) :: rest, key => if k = key then some v else dlookup rest key

/-- `d[key] = val` on a Python dict: update in place if the key exists
(keeping its position), otherwise append at the end. -/
def dinsert {α : Type} : List (String × α) → String → α → List (String × α)
  | [], key, val => [(key, val)]
  | (k, v) :: rest, key, val =>
    if k = key then (k, val) :: rest else (k, v) :: dinsert rest key val

/-- `str.startswith(pre)`, computed on the underlying character lists. -/
def charsPrefix : List Char → List Char → Bool
  | [], _ => true
  | _ :: _, [] => false
  | p :: ps, c :: cs => p = c && charsPrefix ps cs

def pyStartswith (s pre : String) : Bool := charsPrefix pre.data s.data

/-- Exceptions raised by the embedded Python code. -/
inductive PyError where
  | valueError (msg : String)
  | keyError (key : String)
  | zeroDivisionError
  | indexError
deriving DecidableEq

/-- A version record as stored in the registry dict: the source stores plain
dicts whose keys are `architecture`, `path`, `preprocessing`, `members`,
`weights`, `created_at`; optional fields model absent keys. -/
structure RecordDict where
  architecture : String
  path : Option String
  preprocessing : Option String
  members : Option (List String)
  weights : Option (List ℚ)
  created_at : String
deriving DecidableEq

/-- One category's entry in `ModelRegistry._registry`: a `versions` dict
(which a hand-edited persisted file may lack, hence `Option`) and an optional
`default_version` pointer. -/
structure CategoryEntry where
  versions : Option (List (String × RecordDict))
  default_version : Option String
deriving DecidableEq

/-- A live predictor handle.  A `single` handle is an opaque loaded/built
TensorFlow model, identified by the allocation counter; `ensembleM` is the
`EnsembleModel` wrapper with its `members`, `model_infos` and (normalized)
`weights` attributes. -/
inductive PyModel where
  | single (id : Nat)
  | ensembleM (members : List PyModel) (model_infos : List RecordDict)
      (weights : List ℚ)

/-- The mutable state of the `ModelRegistry` singleton: `_registry`,
`_default_models`, the `_models` cache (keys are the flat strings
`f"{category}_{version}"`), the persisted registry file content, and the
fresh-handle allocation counter for the abstracted TensorFlow backend. -/
structure RegState where
  registry : List (String × CategoryEntry)
  default_models : List (String × String)
  models : List (String × PyModel)
  persisted : Option (List (String × CategoryEntry))
  next_id : Nat

/-- `ModelRegistry._save_registry`: dumps the in-memory registry to the file. -/
def save_registry (st : RegState) : RegState :=
  { st with persisted := some st.registry }

/-- The member-verification loop of `create_ensemble`: for each requested
member version, `self._registry[category]['versions']` is consulted (a
`KeyError` if the `versions` key is missing) and a `ValueError` is raised for
the first member absent from it. -/
def member_check (versionsOpt : Option (List (String × RecordDict))) :
    List String → Option PyError
  | [] => none
  | v :: rest =>
    match versionsOpt with
    | none => some (.keyError "versions")
    | some vs =>
      if (dlookup vs v).isNone then
        some (.valueError ("Model version " ++ v ++ " not found in registry"))
      else member_check versionsOpt rest

/-- The weight normalization `weights = [w / sum(weights) for w in weights]`
shared by `create_ensemble` and `EnsembleModel.__init__`: the empty list maps
to itself (the division is never evaluated), a non-empty list summing to zero
raises `ZeroDivisionError`. -/
def normalize_weights (ws : List ℚ) : Except PyError (List ℚ) :=
  if ws.isEmpty then .ok []
  else if ws.sum = 0 then .error .zeroDivisionError
  else .ok (ws.map (fun w => w / ws.sum))

/-- `ModelRegistry.create_ensemble(category, ensemble_name, member_versions,
weights=None)` (enhanced_model_loader.py lines 366-400). -/
def create_ensemble (st : RegState) (category ensemble_name : String)
    (member_versions : List String) (weightsOpt : Option (List ℚ))
    (now : String) : Except (PyError × RegState) RegState :=
  match dlookup st.registry category with
  | none =>
    .error (.valueError ("Category " ++ category ++ " not found in registry"), st)
  | some entry =>
    match member_check entry.versions member_versions with
    | some e => .error (e, st)
    | none =>
      let weightsStep : Except PyError (List ℚ) :=
        match weightsOpt with
        | none =>
          if member_versions.length = 0 then .error .zeroDivisionError
          else .ok (List.replicate member_versions.length
                      (1 / (member_versions.length : ℚ)))
        | some ws => .ok ws
      match weightsStep with
      | .error e => .error (e, st)
      | .ok ws0 =>
        match normalize_weights ws0 with
        | .error e => .error (e, st)
        | .ok ws =>
          match entry.versions with
          | none => .error (.keyError "versions", st)
          | some vs =>
            let newRecord : RecordDict :=
              { architecture := "ensemble", path := none, preprocessing := none,
                members := some member_versions, weights := some ws,
                created_at := now }
            let registry1 := dinsert st.registry category
              { entry with versions := some (dinsert vs ensemble_name newRecord) }
            .ok (save_registry { st with registry := registry1 })

/-- `ModelRegistry.set_default_model(category, version)`
(enhanced_model_loader.py lines 348-364). -/
def set_default_model (st : RegState) (category version : String) :
    Except (PyError × RegState) RegState :=
  let notFound : Except (PyError × RegState) RegState :=
    .error (.valueError
      ("Model " ++ category ++ "/" ++ version ++ " not found in registry"), st)
  match dlookup st.registry category with
  | none => notFound
  | some entry =>
    match entry.versions with
    | none => notFound
    | some vs =>
      if (dlookup vs version).isSome then
        .ok (save_registry
          { st with
            registry := dinsert st.registry category
              { entry with default_version := some version },
            default_models := dinsert st.default_models category version })
      else notFound

/-- `ModelRegistry.register_model(category, version, model_path, architecture,
is_default=False, preprocessing='standard')` (enhanced_model_loader.py lines
310-346).  Creates the category if absent, upserts the record, optionally
repoints the default, persists, and drops every cache key that starts with
`f"{category}_"`. -/
def register_model (st : RegState) (category version model_path architecture : String)
    (is_default : Bool) (preprocessing : String) (now : String) :
    Except (PyError × RegState) RegState :=
  let registry0 :=
    if (dlookup st.registry category).isSome then st.registry
    else dinsert st.registry category { versions := some [], default_version := none }
  match dlookup registry0 category with
  | none => .error (.keyError category, { st with registry := registry0 })
  | some entry =>
    match entry.versions with
    | none => .error (.keyError "versions", { st with registry := registry0 })
    | some vs =>
      let newRecord : RecordDict :=
        { architecture := architecture, path := some model_path,
          preprocessing := some preprocessing, members := none, weights := none,
          created_at := now }
      let entry1 := { entry with versions := some (dinsert vs version newRecord) }
      let entry2 :=
        if is_default then { entry1 with default_version := some version } else entry1
      let st1 := save_registry
        { st with
          registry := dinsert registry0 category entry2,
          default_models :=
            if is_default then dinsert st.default_models category version
            else st.default_models }
      .ok { st1 with
            models := st1.models.filter
              (fun kv => !(pyStartswith kv.1 (category ++ "_"))) }

/-- `ModelRegistry._load_single_model`: the external TensorFlow load (or
fresh build plus write-through save) is abstracted to allocating a fresh
opaque handle; the access `model_info['path']` raises `KeyError` when the
record has no `path` key. -/
def load_single_model (st : RegState) (info : RecordDict) :
    Except (PyError × RegState) (PyModel × RegState) :=
  match info.path with
  | none => .error (.keyError "path", st)
  | some _ => .ok (.single st.next_id, { st with next_id := st.next_id + 1 })

/-- The member-loading loop of `_load_ensemble_model`: the literal member id
`'ensemble'` is skipped, an unresolved member id is skipped (dict `.get`
returning `None`), and each remaining member is loaded as a single model.
The registry is consulted afresh each iteration, as in the source. -/
def load_members (registry : List (String × CategoryEntry)) (category : String) :
    RegState → List String →
    Except (PyError × RegState) (List (PyModel × RecordDict) × RegState)
  | st, [] => .ok ([], st)
  | st, m :: rest =>
    if m = "ensemble" then load_members registry category st rest
    else
      match dlookup registry category with
      | none => .error (.keyError category, st)
      | some entry =>
        match entry.versions with
        | none => .error (.keyError "versions", st)
        | some vs =>
          match dlookup vs m with
          | none => load_members registry category st rest
          | some info =>
            match load_single_model st info with
            | .error e => .error e
            | .ok (mdl, st1) =>
              match load_members registry category st1 rest with
              | .error e => .error e
              | .ok (pairs, st2) => .ok ((mdl, info) :: pairs, st2)

/-- `EnsembleModel.__init__(members, weights)` (enhanced_model_loader.py lines
411-424): splits the `(model, model_info)` pairs and renormalizes the weight
list by its sum. -/
def ensemble_model_init (pairs : List (PyModel × RecordDict)) (weights : List ℚ) :
    Except PyError PyModel :=
  match normalize_weights weights with
  | .error e => .error e
  | .ok ws => .ok (.ensembleM (pairs.map Prod.fst) (pairs.map Prod.snd) ws)

/-- `ModelRegistry._load_ensemble_model(category, model_info)`
(enhanced_model_loader.py lines 242-270). -/
def load_ensemble_model (st : RegState) (category : String) (info : RecordDict) :
    Except (PyError × RegState) (PyModel × RegState) :=
  match info.members, info.weights with
  | none, _ =>
    .error (.valueError "Ensemble model must define members and weights", st)
  | some _, none =>
    .error (.valueError "Ensemble model must define members and weights", st)
  | some members, some weights =>
    if members.length ≠ weights.length then
      .error (.valueError "Number of members and weights must match", st)
    else
      match load_members st.registry category st members with
      | .error e => .error e
      | .ok (pairs, st1) =>
        match ensemble_model_init pairs weights with
        | .error e => .error (e, st1)
        | .ok mdl => .ok (mdl, st1)

/-- The version-resolution prologue of `get_model`. -/
def resolve_version (st : RegState) (category : String)
    (version : Option String) (model_type : Option String) : String :=
  if model_type = some "ensemble" then "ensemble"
  else
    match version with
    | some v => v
    | none => (dlookup st.default_models category).getD "v1"

/-- The registry membership test of `get_model`: the category is known, has a
`versions` dict, and the resolved version is a key of it. -/
def model_present (st : RegState) (category v : String) : Bool :=
  match dlookup st.registry category with
  | none => false
  | some entry =>
    match entry.versions with
    | none => false
    | some vs => (dlookup vs v).isSome

/-- `ModelRegistry.get_model(category, version=None, model_type=None)`
(enhanced_model_loader.py lines 165-207): resolve the version, check the
registry, serve from the `_models` cache when possible, otherwise construct,
cache and return. -/
def get_model (st : RegState) (category : String) (version : Option String)
    (model_type : Option String) :
    Except (PyError × RegState) (PyModel × RegState) :=
  let v := resolve_version st category version model_type
  if model_present st category v then
    let cache_key := category ++ "_" ++ v
    match dlookup st.models cache_key with
    | some mdl => .ok (mdl, st)
    | none =>
      match dlookup st.registry category with
      | none => .error (.keyError category, st)
      | some entry =>
        match entry.versions with
        | none => .error (.keyError "versions", st)
        | some vs =>
          match dlookup vs v with
          | none => .error (.keyError v, st)
          | some info =>
            match
              (if info.architecture = "ensemble" then
                load_ensemble_model st category info
              else load_single_model st info) with
            | .error e => .error e
            | .ok (mdl, st1) =>
              .ok (mdl, { st1 with models := dinsert st1.models cache_key mdl })
  else
    .error (.valueError
      ("Model " ++ category ++ "/" ++ v ++ " not found in registry"), st)

/-! ## Classification pipeline (enhanced_image_analyzer.py) -/

/-- A condition-catalog entry (`THROAT_CONDITIONS` / `EAR_CONDITIONS` dicts
in medical_image_analyzer.py): the fields consumed by `analyze_image`. -/
structure ConditionLabel where
  id : String
  name : String
  isPotentiallySerious : Bool
  treatmentInfo : Option String
deriving DecidableEq

/-- An enriched classification result as assembled by `analyze_image`
(enhanced_image_analyzer.py lines 169-192). -/
structure ClassificationResult where
  id : String
  name : String
  isPotentiallySerious : Bool
  confidence : ℚ
  recommendationText : String
  recommendConsultation : Bool
  treatmentInfo : String
deriving DecidableEq

/-- The key comparison used to argsort indices by their score. -/
def scoreLE (preds : List ℚ) (i j : Nat) : Prop :=
  preds.getD i 0 ≤ preds.getD j 0

instance (preds : List ℚ) : DecidableRel (scoreLE preds) :=
  fun i j => inferInstanceAs (Decidable (preds.getD i 0 ≤ preds.getD j 0))

/-- `np.argsort(preds)`: the stable ascending argsort of all positions. -/
def argsortAsc (preds : List ℚ) : List Nat :=
  List.insertionSort (scoreLE preds) (List.range preds.length)

/-- The index-selection step of `analyze_image` (lines 150-158):
`np.where(preds > thr)[0]` collects the qualifying positions in ascending
order; if none qualify, `np.argsort(preds)[::-1][:2]` takes the top two of
the reversed argsort; otherwise the qualifying positions are reordered by
`indices[np.argsort(preds[indices])[::-1]]`, i.e. stably argsorted ascending
by score and reversed. -/
def select_indices (preds : List ℚ) (thr : ℚ) : List Nat :=
  let indices := (List.range preds.length).filter (fun i => thr < preds.getD i 0)
  if indices.length = 0 then
    ((argsortAsc preds).reverse).take 2
  else
    (List.insertionSort (scoreLE preds) indices).reverse

/-- The per-result enrichment of `analyze_image` (lines 171-192): confidence
bands for the recommendation text, consultation flag, and the default
treatment info when the catalog entry lacks one. -/
def enrich (c : ConditionLabel) (confidence : ℚ) : ClassificationResult :=
  let band : String × Bool :=
    if confidence > 7/10 then
      ("High confidence prediction for " ++ c.name ++ ".", c.isPotentiallySerious)
    else if confidence > 5/10 then
      ("Moderate confidence prediction for " ++ c.name ++ ".", c.isPotentiallySerious)
    else
      ("Low confidence prediction for " ++ c.name ++ ".", false)
  { id := c.id, name := c.name, isPotentiallySerious := c.isPotentiallySerious,
    confidence := confidence,
    recommendationText := band.1,
    recommendConsultation := band.2,
    treatmentInfo :=
      match c.treatmentInfo with
      | some t => t
      | none =>
        if c.isPotentiallySerious then
          "Please consult a healthcare professional for treatment options."
        else
          "Consider symptom management and consult a healthcare professional if symptoms worsen." }

/-- The post-prediction tail of `analyze_image` (lines 150-192): select the
indices, then join each selected index with the catalog — an index at or
beyond the catalog length is silently dropped (`if idx < len(conditions)`). -/
def analyze_results (preds : List ℚ) (thr : ℚ) (catalog : List ConditionLabel) :
    List ClassificationResult :=
  (select_indices preds thr).filterMap
    (fun idx => (catalog.get? idx).map (fun c => enrich c (preds.getD idx 0)))

/-! ## Binary reducer (binary_classifier.py) -/

/-- The fields of a multiclass result consumed by the binary reducer
(`condition.get('confidence', 0)` and
`condition.get('isPotentiallySerious', False)`). -/
structure BinaryInput where
  confidence : ℚ
  isPotentiallySerious : Bool
deriving DecidableEq

/-- The binary verdict assembled from the `BINARY_CONDITIONS` base dicts
plus the fields written by the reducer. -/
structure BinaryResult where
  id : String
  name : String
  isPotentiallySerious : Bool
  recommendConsultation : Bool
  treatmentInfo : String
  confidence : ℚ
  recommendationText : String
deriving DecidableEq

/-- The `max_confidence` accumulation loop of
`get_binary_classification_from_multiclass` (lines 146-152): starts at `0`
and replaces the accumulator on strict increase. -/
def max_confidence (conditions : List BinaryInput) : ℚ :=
  conditions.foldl (fun acc c => if c.confidence > acc then c.confidence else acc) 0

/-- The `has_serious_condition` flag (lines 147-155). -/
def has_serious_condition (conditions : List BinaryInput) (thr : ℚ) : Bool :=
  conditions.any (fun c => c.isPotentiallySerious && c.confidence > thr)

/-- `get_binary_classification_from_multiclass(conditions,
infection_threshold=0.3)` (binary_classifier.py lines 135-172). -/
def get_binary_classification_from_multiclass (conditions : List BinaryInput)
    (infection_threshold : ℚ) : List BinaryResult :=
  let maxC := max_confidence conditions
  let is_infected :=
    has_serious_condition conditions infection_threshold || maxC > infection_threshold
  let base : BinaryResult :=
    if is_infected then
      { id := "infected", name := "Abnormal/Infected", isPotentiallySerious := true,
        recommendConsultation := true,
        treatmentInfo := "Please consult a healthcare professional for proper diagnosis and treatment.",
        confidence := maxC, recommendationText := "" }
    else
      { id := "normal", name := "Normal/Healthy", isPotentiallySerious := false,
        recommendConsultation := false,
        treatmentInfo := "No specific treatment needed. Continue with regular health maintenance.",
        confidence := 1 - maxC, recommendationText := "" }
  let withText :=
    if base.confidence > 7/10 then
      { base with recommendationText :=
          "High confidence prediction for " ++ base.name ++ "." }
    else if base.confidence > 5/10 then
      { base with recommendationText :=
          "Moderate confidence prediction for " ++ base.name ++ "." }
    else
      { base with recommendationText :=
          "Low confidence prediction for " ++ base.name ++ "." }
  [withText]

/-! ## Basic lemmas about the dict model -/

theorem dlookup_dinsert {α : Type} (d : List (String × α)) (k : String) (v : α)
    (k' : String) :
    dlookup (dinsert d k v) k' = if k = k' then some v else dlookup d k' := by
  induction d with
  | nil => simp [dinsert, dlookup]
  | cons hd tl ih =>
    obtain ⟨k0, v0⟩ := hd
    by_cases h0 : k0 = k
    · subst h0
      by_cases h1 : k0 = k' <;> simp [dinsert, dlookup, h1]
    · by_cases h1 : k0 = k'
      · subst h1
        have h2 : ¬ k = k0 := fun h => h0 h.symm
        simp [dinsert, dlookup, h0, h2]
      · simp [dinsert, dlookup, h0, h1, ih]

theorem dlookup_filter (p : String → Bool) (l : List (String × PyModel)) (k : String) :
    dlookup (l.filter (fun kv => !(p kv.1))) k =
      if p k then none else dlookup l k := by
  induction l with
  | nil => by_cases h : p k <;> simp [dlookup, h]
  | cons hd tl ih =>
    obtain ⟨k0, v0⟩ := hd
    by_cases h0 : p k0
    · by_cases h1 : k0 = k
      · subst h1
        simp [List.filter, h0, ih]
      · simp [List.filter, h0, ih, dlookup, h1]
    · by_cases h1 : k0 = k
      · subst h1
        simp [List.filter, h0, dlookup, ih]
      · simp [List.filter, h0, dlookup, h1, ih]

/-! ## The maximum-accumulation loop of the binary reducer -/

/-- One step of the `if confidence > max_confidence` accumulation. -/
def pymaxStep (acc x : ℚ) : ℚ := if x > acc then x else acc

theorem pymaxStep_ge_left (acc x : ℚ) : acc ≤ pymaxStep acc x := by
  rw [pymaxStep]
  split_ifs with h
  · exact le_of_lt h
  · exact le_refl _

theorem pymaxStep_ge_right (acc x : ℚ) : x ≤ pymaxStep acc x := by
  rw [pymaxStep]
  split_ifs with h
  · exact le_refl _
  · exact le_of_not_lt h

theorem pymaxStep_eq_or (acc x : ℚ) : pymaxStep acc x = acc ∨ pymaxStep acc x = x := by
  rw [pymaxStep]
  split_ifs
  · right; rfl
  · left; rfl

theorem pyfold_ge_init (l : List ℚ) (a : ℚ) : a ≤ l.foldl pymaxStep a := by
  induction l generalizing a with
  | nil => simp
  | cons x l ih =>
    rw [List.foldl_cons]
    exact le_trans (pymaxStep_ge_left a x) (ih (pymaxStep a x))

theorem pyfold_ge_mem (l : List ℚ) (a x : ℚ) (hx : x ∈ l) :
    x ≤ l.foldl pymaxStep a := by
  induction l generalizing a with
  | nil => simp at hx
  | cons y l ih =>
    rw [List.foldl_cons]
    rcases List.mem_cons.mp hx with h1 | h1
    · subst h1
      exact le_trans (pymaxStep_ge_right a x) (pyfold_ge_init l (pymaxStep a x))
    · exact ih (pymaxStep a y) h1

theorem pyfold_mem (l : List ℚ) (a : ℚ) : l.foldl pymaxStep a ∈ a :: l := by
  induction l generalizing a with
  | nil => simp
  | cons y l ih =>
    rw [List.foldl_cons]
    rcases List.mem_cons.mp (ih (pymaxStep a y)) with h1 | h1
    · rw [h1]
      rcases pymaxStep_eq_or a y with h2 | h2 <;> simp [h2]
    · exact List.mem_cons_of_mem _ (List.mem_cons_of_mem _ h1)

theorem max_confidence_eq_fold (conditions : List BinaryInput) :
    max_confidence conditions =
      (conditions.map BinaryInput.confidence).foldl pymaxStep 0 := by
  rw [List.foldl_map]
  rfl

/-- The `id` and `confidence` fields of the binary reducer's single output,
as a function of the infection decision. -/
theorem gbc_fields (conditions : List BinaryInput) (thr : ℚ) :
    ∀ r ∈ get_binary_classification_from_multiclass conditions thr,
      r.id = (if (has_serious_condition conditions thr ||
                  decide (max_confidence conditions > thr)) = true
              then "infected" else "normal") ∧
      r.confidence = (if (has_serious_condition conditions thr ||
                  decide (max_confidence conditions > thr)) = true
              then max_confidence conditions
              else 1 - max_confidence conditions) := by
  intro r hr
  simp only [get_binary_classification_from_multiclass, List.mem_singleton] at hr
  subst hr
  by_cases hb : (has_serious_condition conditions thr ||
      decide (max_confidence conditions > thr)) = true <;>
    simp only [hb, if_true, if_false, Bool.not_eq_true] at * <;>
    split_ifs <;> simp [hb]

/-- C10: on the empty multiclass result list, the binary reducer does not
fail: it returns exactly the single `normal` verdict with confidence `1`,
whose recommendation text is the high-confidence band (not the low band). -/
theorem claim_c10_empty_reduce :
    get_binary_classification_from_multiclass [] (3/10) =
      [{ id := "normal", name := "Normal/Healthy", isPotentiallySerious := false,
         recommendConsultation := false,
         treatmentInfo := "No specific treatment needed. Continue with regular health maintenance.",
         confidence := 1,
         recommendationText := "High confidence prediction for Normal/Healthy." }] := by
  have h1 : max_confidence [] = 0 := rfl
  have h2 : has_serious_condition [] (3/10) = false := rfl
  simp only [get_binary_classification_from_multiclass, h1, h2, Bool.false_or,
    gt_iff_lt]
  norm_num
  rfl

/-- C4: on any non-empty result list with confidences in `[0, 1]`, the binary
reducer returns exactly one verdict; the verdict is `infected` iff some
potentially-serious result exceeds the infection threshold or the maximum
confidence exceeds it; the reported confidence is the maximum input
confidence when infected and one minus it otherwise. -/
theorem claim_c4_binary_reduce (conditions : List BinaryInput) (thr : ℚ)
    (hne : conditions ≠ [])
    (hlo : ∀ c ∈ conditions, 0 ≤ c.confidence)
    (hhi : ∀ c ∈ conditions, c.confidence ≤ 1) :
    (get_binary_classification_from_multiclass conditions thr).length = 1 ∧
    max_confidence conditions ∈ conditions.map BinaryInput.confidence ∧
    (∀ c ∈ conditions, c.confidence ≤ max_confidence conditions) ∧
    (∀ r ∈ get_binary_classification_from_multiclass conditions thr,
      ((r.id = "infected") ↔
        ((∃ c ∈ conditions, c.isPotentiallySerious = true ∧ thr < c.confidence) ∨
          thr < max_confidence conditions)) ∧
      (r.id = "infected" → r.confidence = max_confidence conditions) ∧
      (r.id ≠ "infected" →
        r.id = "normal" ∧ r.confidence = 1 - max_confidence conditions)) := by
  have hmem : max_confidence conditions ∈ conditions.map BinaryInput.confidence := by
    rw [max_confidence_eq_fold]
    rcases List.mem_cons.mp (pyfold_mem (conditions.map BinaryInput.confidence) 0)
      with h1 | h1
    · obtain ⟨c0, hc0⟩ := List.exists_mem_of_ne_nil conditions hne
      have hle : c0.confidence ≤
          (conditions.map BinaryInput.confidence).foldl pymaxStep 0 :=
        pyfold_ge_mem _ _ _ (List.mem_map_of_mem _ hc0)
      rw [h1] at hle
      have h0 : c0.confidence = 0 := le_antisymm hle (hlo c0 hc0)
      rw [h1, ← h0]
      exact List.mem_map_of_mem _ hc0
    · exact h1
  have hdom : ∀ c ∈ conditions, c.confidence ≤ max_confidence conditions := by
    intro c hc
    rw [max_confidence_eq_fold]
    exact pyfold_ge_mem _ _ _ (List.mem_map_of_mem _ hc)
  have hiff : (has_serious_condition conditions thr ||
      decide (max_confidence conditions > thr)) = true ↔
      ((∃ c ∈ conditions, c.isPotentiallySerious = true ∧ thr < c.confidence) ∨
        thr < max_confidence conditions) := by
    simp [has_serious_condition, List.any_eq_true, gt_iff_lt]
  refine ⟨by simp [get_binary_classification_from_multiclass], hmem, hdom, ?_⟩
  intro r hr
  obtain ⟨hid, hconf⟩ := gbc_fields conditions thr r hr
  by_cases hb : (has_serious_condition conditions thr ||
      decide (max_confidence conditions > thr)) = true
  · rw [hb] at hid hconf
    simp only [if_true] at hid hconf
    refine ⟨⟨fun _ => hiff.mp hb, fun _ => hid⟩, fun _ => hconf, fun hcontra => ?_⟩
    exact absurd hid hcontra
  · simp only [hb, if_false] at hid hconf
    have hne2 : r.id ≠ "infected" := by
      rw [hid]
      simp
    refine ⟨⟨fun h => absurd h hne2, fun h => absurd (hiff.mpr h) hb⟩,
      fun h => absurd h hne2, fun _ => ⟨hid, hconf⟩⟩

/-- Witness for C4 at the spec's probe input: a single potentially-serious
result with confidence `0.4` reduced at threshold `0.3`. -/
theorem claim_c4_binary_reduce_witness :
    ([{ confidence := 2/5, isPotentiallySerious := true }] : List BinaryInput) ≠ [] ∧
    ((get_binary_classification_from_multiclass
        [{ confidence := 2/5, isPotentiallySerious := true }] (3/10)).length = 1 ∧
      max_confidence [{ confidence := 2/5, isPotentiallySerious := true }] ∈
        ([{ confidence := 2/5, isPotentiallySerious := true }] : List BinaryInput).map
          BinaryInput.confidence ∧
      (∀ c ∈ ([{ confidence := 2/5, isPotentiallySerious := true }] : List BinaryInput),
        c.confidence ≤ max_confidence [{ confidence := 2/5, isPotentiallySerious := true }]) ∧
      (∀ r ∈ get_binary_classification_from_multiclass
          [{ confidence := 2/5, isPotentiallySerious := true }] (3/10),
        ((r.id = "infected") ↔
          ((∃ c ∈ ([{ confidence := 2/5, isPotentiallySerious := true }] : List BinaryInput),
              c.isPotentiallySerious = true ∧ (3/10 : ℚ) < c.confidence) ∨
            (3/10 : ℚ) < max_confidence [{ confidence := 2/5, isPotentiallySerious := true }])) ∧
        (r.id = "infected" →
          r.confidence = max_confidence [{ confidence := 2/5, isPotentiallySerious := true }]) ∧
        (r.id ≠ "infected" →
          r.id = "normal" ∧
            r.confidence =
              1 - max_confidence [{ confidence := 2/5, isPotentiallySerious := true }]))) :=
  ⟨by simp,
    claim_c4_binary_reduce [{ confidence := 2/5, isPotentiallySerious := true }] (3/10)
      (by simp)
      (by intro c hc; rw [List.mem_singleton] at hc; subst hc; norm_num)
      (by intro c hc; rw [List.mem_singleton] at hc; subst hc; norm_num)⟩

/-! ## createEnsemble: weight normalization and validation -/

/-- The record stored under `(category, version)` in a state's registry. -/
def registry_record (st : RegState) (category version : String) : Option RecordDict :=
  match dlookup st.registry category with
  | none => none
  | some entry =>
    match entry.versions with
    | none => none
    | some vs => dlookup vs version

theorem list_sum_div (l : List ℚ) (s : ℚ) :
    (l.map (fun w => w / s)).sum = l.sum / s := by
  induction l with
  | nil => simp
  | cons x l ih => simp [ih, add_div]

theorem member_check_none (vs : List (String × RecordDict)) (ms : List String)
    (h : ∀ m ∈ ms, (dlookup vs m).isSome) :
    member_check (some vs) ms = none := by
  induction ms with
  | nil => rfl
  | cons m rest ih =>
    have h1 : (dlookup vs m).isSome := h m (List.mem_cons_self m rest)
    simp only [member_check]
    rw [if_neg]
    · exact ih (fun x hx => h x (List.mem_cons_of_mem m hx))
    · simp [Option.isNone_iff_eq_none]
      rcases Option.isSome_iff_exists.mp h1 with ⟨r, hr⟩
      simp [hr]

/-- C1: a `create_ensemble` call on a known category whose member ids all
resolve, with a non-empty member list, and either no weight vector or a
non-empty weight vector of non-zero sum, succeeds; the stored weight vector
sums to exactly `1`, and when the weights argument is omitted the stored
weights are the uniform vector `1/N` for the `N` members. -/
theorem claim_c1_ensemble_weights (st : RegState) (category ensemble_name now : String)
    (member_versions : List String) (weightsOpt : Option (List ℚ))
    (entry : CategoryEntry) (vs : List (String × RecordDict))
    (hcat : dlookup st.registry category = some entry)
    (hvs : entry.versions = some vs)
    (hmem : ∀ m ∈ member_versions, (dlookup vs m).isSome)
    (hne : member_versions ≠ [])
    (hws : ∀ ws, weightsOpt = some ws → ws ≠ [] ∧ ws.sum ≠ 0) :
    ((((create_ensemble st category ensemble_name member_versions weightsOpt now).toOption.bind
        (fun st1 => registry_record st1 category ensemble_name)).bind
        RecordDict.weights).map List.sum = some 1) ∧
    (weightsOpt = none →
      ((create_ensemble st category ensemble_name member_versions weightsOpt now).toOption.bind
          (fun st1 => registry_record st1 category ensemble_name)).bind
          RecordDict.weights =
        some (List.replicate member_versions.length
          (1 / (member_versions.length : ℚ)))) := by
  have hchk : member_check (some vs) member_versions = none :=
    member_check_none vs member_versions hmem
  have hlen : member_versions.length ≠ 0 := fun h => hne (List.length_eq_zero.mp h)
  rcases hwo : weightsOpt with _ | ws
  · -- weights omitted: uniform default, then renormalized by its sum 1
    have hsum : (List.replicate member_versions.length
        (1 / (member_versions.length : ℚ))).sum = 1 := by
      rw [List.sum_replicate, nsmul_eq_mul]
      rw [mul_one_div, div_self]
      exact_mod_cast hlen
    have hnorm : normalize_weights (List.replicate member_versions.length
        (1 / (member_versions.length : ℚ))) =
        .ok (List.replicate member_versions.length
          (1 / (member_versions.length : ℚ))) := by
      rw [normalize_weights, if_neg, if_neg]
      · rw [hsum]
        simp
      · rw [hsum]
        norm_num
      · simp [List.isEmpty_iff]
        intro h
        exact hlen (by rw [h]; rfl)
    simp only [create_ensemble, hcat, hvs, hchk, hwo, if_neg hlen, hnorm]
    have hsum2 : (List.replicate member_versions.length
        (((member_versions.length : ℚ))⁻¹)).sum = 1 := by
      rw [← one_div]
      exact hsum
    constructor
    · simp [Except.toOption, registry_record, save_registry, dlookup_dinsert, hsum, hsum2]
    · intro _
      simp [Except.toOption, registry_record, save_registry, dlookup_dinsert]
  · -- weights provided: renormalized by their sum
    obtain ⟨hwne, hwsum⟩ := hws ws hwo
    have hnorm : normalize_weights ws = .ok (ws.map (fun w => w / ws.sum)) := by
      rw [normalize_weights, if_neg, if_neg hwsum]
      simp [List.isEmpty_iff, hwne]
    have hsum : (ws.map (fun w => w / ws.sum)).sum = 1 := by
      rw [list_sum_div, div_self hwsum]
    simp only [create_ensemble, hcat, hvs, hchk, hwo, hnorm]
    constructor
    · simp [Except.toOption, registry_record, save_registry, dlookup_dinsert, hsum]
    · intro h
      exact absurd h (by simp)

/-- A small concrete registry state: one category `"throat"` holding the
single-model record `"v1"`. -/
def demoRecV1 : RecordDict :=
  { architecture := "resnet50", path := some "throat_model_resnet50_v1",
    preprocessing := some "standard", members := none, weights := none,
    created_at := "" }

def demoSt : RegState :=
  { registry := [("throat",
      { versions := some [("v1", demoRecV1)], default_version := some "v1" })],
    default_models := [("throat", "v1")],
    models := [], persisted := none, next_id := 0 }

/-- Witness for C1: creating a one-member ensemble on the demo registry with
weights omitted stores the uniform weight vector `[1]`, of sum `1`. -/
theorem claim_c1_ensemble_weights_witness :
    ((((create_ensemble demoSt "throat" "ens1" ["v1"] none "").toOption.bind
        (fun st1 => registry_record st1 "throat" "ens1")).bind
        RecordDict.weights).map List.sum = some 1) ∧
    ((none : Option (List ℚ)) = none →
      (((create_ensemble demoSt "throat" "ens1" ["v1"] none "").toOption.bind
          (fun st1 => registry_record st1 "throat" "ens1")).bind
          RecordDict.weights =
        some (List.replicate (["v1"] : List String).length
          (1 / (((["v1"] : List String).length : ℚ)))))) :=
  claim_c1_ensemble_weights demoSt "throat" "ens1" "" ["v1"] none
    { versions := some [("v1", demoRecV1)], default_version := some "v1" }
    [("v1", demoRecV1)] (by rfl) (by rfl)
    (by intro m hm; rw [List.mem_singleton] at hm; subst hm; rfl)
    (by simp)
    (by intro ws h; simp at h)

/-! ## createEnsemble: failure modes (C2) -/

/-- The state that was current when a registry method raised. -/
def errState {α : Type} : Except (PyError × RegState) α → Option RegState
  | .error (_, s) => some s
  | .ok _ => none

/-- Does the call raise a `ValueError` (of any message)? -/
def failsWithValueError {α : Type} : Except (PyError × RegState) α → Bool
  | .error (.valueError _, _) => true
  | _ => false

theorem member_check_exists_unresolved (vs : List (String × RecordDict))
    (ms : List String) (h : ∃ m ∈ ms, dlookup vs m = none) :
    ∃ msg, member_check (some vs) ms = some (.valueError msg) := by
  induction ms with
  | nil => simp at h
  | cons m rest ih =>
    by_cases hm : dlookup vs m = none
    · refine ⟨"Model version " ++ m ++ " not found in registry", ?_⟩
      simp [member_check, Option.isNone_iff_eq_none, hm]
    · have h2 : ∃ x ∈ rest, dlookup vs x = none := by
        rcases h with ⟨x, hx, hx2⟩
        rcases List.mem_cons.mp hx with h3 | h3
        · exact absurd (h3 ▸ hx2) hm
        · exact ⟨x, h3, hx2⟩
      rcases ih h2 with ⟨msg, hmsg⟩
      refine ⟨msg, ?_⟩
      simp [member_check, Option.isNone_iff_eq_none, hm, hmsg]

/-- C2 (amended): `create_ensemble` raises `ValueError` and leaves the state
untouched when the category is unknown or some member id is unresolved; with
an empty member list and omitted weights, or a non-empty provided weight
vector summing to zero, it raises `ZeroDivisionError` (not the configuration
`ValueError`), leaving the state untouched; it does not validate against
nested ensembles, and an empty member list with an explicit non-degenerate
weight vector succeeds and mutates the registry. -/
theorem claim_c2_amended :
    (∀ (st : RegState) (category ensemble_name : String)
        (member_versions : List String) (weightsOpt : Option (List ℚ)) (now : String),
      dlookup st.registry category = none →
      create_ensemble st category ensemble_name member_versions weightsOpt now =
        .error (.valueError ("Category " ++ category ++ " not found in registry"), st)) ∧
    (∀ (st : RegState) (category ensemble_name : String)
        (member_versions : List String) (weightsOpt : Option (List ℚ)) (now : String)
        (entry : CategoryEntry) (vs : List (String × RecordDict)),
      dlookup st.registry category = some entry → entry.versions = some vs →
      (∃ m ∈ member_versions, dlookup vs m = none) →
      failsWithValueError
          (create_ensemble st category ensemble_name member_versions weightsOpt now) = true ∧
        errState (create_ensemble st category ensemble_name member_versions weightsOpt now) =
          some st) ∧
    (∀ (st : RegState) (category ensemble_name : String)
        (member_versions : List String) (ws : List ℚ) (now : String)
        (entry : CategoryEntry) (vs : List (String × RecordDict)),
      dlookup st.registry category = some entry → entry.versions = some vs →
      (∀ m ∈ member_versions, (dlookup vs m).isSome) →
      ws ≠ [] → ws.sum = 0 →
      create_ensemble st category ensemble_name member_versions (some ws) now =
        .error (.zeroDivisionError, st)) ∧
    (∀ (st : RegState) (category ensemble_name now : String) (entry : CategoryEntry),
      dlookup st.registry category = some entry →
      create_ensemble st category ensemble_name [] none now =
        .error (.zeroDivisionError, st)) ∧
    (∀ (st : RegState) (category ensemble_name : String) (ws : List ℚ) (now : String)
        (entry : CategoryEntry) (vs : List (String × RecordDict)),
      dlookup st.registry category = some entry → entry.versions = some vs →
      ws ≠ [] → ws.sum ≠ 0 →
      (create_ensemble st category ensemble_name [] (some ws) now).toOption.isSome = true) := by
  refine ⟨?_, ?_, ?_, ?_, ?_⟩
  · intro st category ensemble_name member_versions weightsOpt now h
    simp [create_ensemble, h]
  · intro st category ensemble_name member_versions weightsOpt now entry vs hcat hvs hex
    rcases member_check_exists_unresolved vs member_versions hex with ⟨msg, hmsg⟩
    simp only [create_ensemble, hcat, hvs, hmsg]
    exact ⟨rfl, rfl⟩
  · intro st category ensemble_name member_versions ws now entry vs hcat hvs hmem hne hsum
    have hchk : member_check (some vs) member_versions = none :=
      member_check_none vs member_versions hmem
    have hnw : normalize_weights ws = .error .zeroDivisionError := by
      rw [normalize_weights, if_neg, if_pos hsum]
      simp [List.isEmpty_iff, hne]
    simp only [create_ensemble, hcat, hvs, hchk, hnw]
  · intro st category ensemble_name now entry hcat
    have hchk : member_check entry.versions [] = none := by
      cases entry.versions <;> rfl
    simp [create_ensemble, hcat, hchk]
  · intro st category ensemble_name ws now entry vs hcat hvs hne hsum
    have hnw : normalize_weights ws = .ok (ws.map (fun w => w / ws.sum)) := by
      rw [normalize_weights, if_neg, if_neg hsum]
      simp [List.isEmpty_iff, hne]
    have hchk : member_check entry.versions [] = none := by
      cases entry.versions <;> rfl
    have hchk2 : member_check (some vs) [] = none := rfl
    simp [create_ensemble, hcat, hchk, hchk2, hnw, hvs, Except.toOption]

/-- An ensemble record usable as an (invalid, per the spec) ensemble member. -/
def c2ens : RecordDict :=
  { architecture := "ensemble", path := none, preprocessing := none,
    members := some ["v1"], weights := some [1], created_at := "" }

/-- A registry whose `"throat"` category holds a single record `"v1"` and an
ensemble record `"e1"`. -/
def c2st : RegState :=
  { registry := [("throat",
      { versions := some [("v1", demoRecV1), ("e1", c2ens)],
        default_version := some "v1" })],
    default_models := [("throat", "v1")],
    models := [], persisted := none, next_id := 0 }

/-- Counterexample to C2 as stated: `"e1"` is itself an Ensemble record, yet
`create_ensemble` with member list `["e1"]` succeeds and mutates the registry
(the new record `"e2"` appears), instead of failing with the configuration
error. -/
theorem claim_c2_counterexample :
    ((registry_record c2st "throat" "e1").map RecordDict.architecture =
      some "ensemble") ∧
    registry_record c2st "throat" "e2" = none ∧
    (create_ensemble c2st "throat" "e2" ["e1"] none "").toOption.isSome = true ∧
    (((create_ensemble c2st "throat" "e2" ["e1"] none "").toOption.bind
        (fun st1 => registry_record st1 "throat" "e2")).isSome = true) := by
  have hmc : member_check (some [("v1", demoRecV1), ("e1", c2ens)]) ["e1"] = none := rfl
  have hnw : normalize_weights [(1 : ℚ)] = .ok [1] := by
    norm_num [normalize_weights, List.isEmpty, List.sum_cons, List.sum_nil]
  refine ⟨rfl, rfl, ?_, ?_⟩ <;>
    simp [create_ensemble, c2st, dlookup, dinsert, hmc, hnw,
      Except.toOption, registry_record, save_registry]

/-- Witness for the amended C2: an unresolved member id on the demo registry
raises `ValueError` with the state unchanged. -/
theorem claim_c2_amended_witness :
    failsWithValueError (create_ensemble demoSt "throat" "e9" ["missing"] none "") = true ∧
    errState (create_ensemble demoSt "throat" "e9" ["missing"] none "") = some demoSt :=
  claim_c2_amended.2.1 demoSt "throat" "e9" ["missing"] none ""
    { versions := some [("v1", demoRecV1)], default_version := some "v1" }
    [("v1", demoRecV1)] rfl rfl ⟨"missing", by simp, rfl⟩

/-! ## setDefault (C5) -/

/-- C5: `set_default_model` raises `ValueError` and leaves both the in-memory
and the persisted registry untouched when the version id is absent from the
category (or the category itself is unknown); when the version is present it
repoints only that category's `default_version`, persists the new registry,
and changes nothing else (other categories, the category's version records,
and the predictor cache are untouched). -/
theorem claim_c5_set_default (st : RegState) (category version : String) :
    (dlookup st.registry category = none →
      set_default_model st category version =
        .error (.valueError
          ("Model " ++ category ++ "/" ++ version ++ " not found in registry"), st)) ∧
    (∀ entry vs, dlookup st.registry category = some entry →
      entry.versions = some vs → dlookup vs version = none →
      set_default_model st category version =
        .error (.valueError
          ("Model " ++ category ++ "/" ++ version ++ " not found in registry"), st)) ∧
    (∀ entry vs, dlookup st.registry category = some entry →
      entry.versions = some vs → (dlookup vs version).isSome →
      (((set_default_model st category version).toOption.map
          (fun s => (dlookup s.registry category).map CategoryEntry.default_version)) =
        some (some (some version)) ∧
       ((set_default_model st category version).toOption.map
          (fun s => (dlookup s.registry category).map CategoryEntry.versions)) =
        some (some (some vs)) ∧
       (∀ c, c ≠ category →
        ((set_default_model st category version).toOption.map
          (fun s => dlookup s.registry c)) = some (dlookup st.registry c)) ∧
       ((set_default_model st category version).toOption.map RegState.models) =
        some st.models ∧
       ((set_default_model st category version).toOption.map
          (fun s => s.persisted = some s.registry)) = some True)) := by
  refine ⟨?_, ?_, ?_⟩
  · intro h
    simp [set_default_model, h]
  · intro entry vs hcat hvs hver
    simp [set_default_model, hcat, hvs, hver, Option.isSome_none]
  · intro entry vs hcat hvs hver
    have hif : (dlookup vs version).isSome = true := hver
    simp only [set_default_model, hcat, hvs, hif, if_true, Except.toOption,
      save_registry]
    refine ⟨?_, ?_, ?_, rfl, by simp⟩
    · simp [dlookup_dinsert]
    · simp [dlookup_dinsert]
    · intro c hc
      have hne : ¬ category = c := fun h => hc h.symm
      simp [dlookup_dinsert, hne]

/-- Witness for C5: setting an unknown version `"v9"` on the demo registry
raises `ValueError` with the state (in-memory and persisted) unchanged. -/
theorem claim_c5_set_default_witness :
    set_default_model demoSt "throat" "v9" =
      .error (.valueError
        ("Model " ++ "throat" ++ "/" ++ "v9" ++ " not found in registry"), demoSt) :=
  (claim_c5_set_default demoSt "throat" "v9").2.1
    { versions := some [("v1", demoRecV1)], default_version := some "v1" }
    [("v1", demoRecV1)] rfl rfl rfl

/-! ## registerVersion and cache invalidation (C6) -/

theorem charsPrefix_head (p c : Char) (ps cs : List Char)
    (h : charsPrefix (p :: ps) (c :: cs) = true) : p = c := by
  simp [charsPrefix] at h
  exact h.1

/-- A key that starts with `"ear_"` does not start with `"throat_"`. -/
theorem ear_not_throat_prefix (k : String) (h : pyStartswith k "ear_" = true) :
    pyStartswith k "throat_" = false := by
  rw [pyStartswith] at h ⊢
  have he : ("ear_" : String).data = 'e' :: ['a', 'r', '_'] := rfl
  have ht : ("throat_" : String).data = 't' :: ['h', 'r', 'o', 'a', 't', '_'] := rfl
  rw [he] at h
  rw [ht]
  cases hd : k.data with
  | nil =>
    rw [hd] at h
    exact absurd h (by simp [charsPrefix])
  | cons c cs =>
    rw [hd] at h
    have hc : 'e' = c := charsPrefix_head _ _ _ _ h
    simp [charsPrefix, ← hc]

/-- C6 (amended): a successful `register_model` for a category removes from
the cache exactly the keys that start with the flat string `category ++ "_"`
(the source compares flat string prefixes, not the structured category
component), and leaves every other key bound to the identical handle; in
particular registering for `"throat"` leaves every `"ear_"`-prefixed cache
entry untouched. -/
theorem claim_c6_amended (st : RegState)
    (category version model_path architecture : String) (is_default : Bool)
    (preprocessing now : String) (st1 : RegState)
    (h : register_model st category version model_path architecture
          is_default preprocessing now = .ok st1) :
    (∀ k, pyStartswith k (category ++ "_") = false →
      dlookup st1.models k = dlookup st.models k) ∧
    (∀ k, pyStartswith k (category ++ "_") = true →
      dlookup st1.models k = none) ∧
    (category = "throat" → ∀ k, pyStartswith k "ear_" = true →
      dlookup st1.models k = dlookup st.models k) := by
  have hmodels : st1.models =
      st.models.filter (fun kv => !(pyStartswith kv.1 (category ++ "_"))) := by
    simp only [register_model] at h
    split at h
    · exact absurd h (by simp)
    · split at h
      · exact absurd h (by simp)
      · simp only [Except.ok.injEq] at h
        subst h
        rfl
  have hmain : ∀ k, dlookup st1.models k =
      if pyStartswith k (category ++ "_") then none else dlookup st.models k := by
    intro k
    rw [hmodels]
    exact dlookup_filter (fun k => pyStartswith k (category ++ "_")) st.models k
  refine ⟨?_, ?_, ?_⟩
  · intro k hk
    rw [hmain k, if_neg]
    simp [hk]
  · intro k hk
    rw [hmain k, if_pos hk]
  · intro hcat k hk
    subst hcat
    have h1 : ("throat" ++ "_" : String) = "throat_" := rfl
    rw [hmain k, h1, ear_not_throat_prefix k hk]
    simp

/-- A registry whose only category is named `"a_b"`, with one version. -/
def c6st0 : RegState :=
  { registry := [("a_b",
      { versions := some [("v1", demoRecV1)], default_version := some "v1" })],
    default_models := [("a_b", "v1")],
    models := [], persisted := none, next_id := 0 }

/-- `c6st0` after the predictor for `("a_b", "v1")` has been constructed and
cached (under the flat key `"a_b_v1"`). -/
def c6st1 : RegState :=
  { c6st0 with models := [("a_b_v1", .single 0)], next_id := 1 }

/-- Counterexample to C6 as stated: with the two distinct categories `"a"`
and `"a_b"`, the cached handle for category `"a_b"` (key `"a_b_v1"`) is
dropped by a `register_model` call for category `"a"`, because the source
invalidates by flat string prefix `"a_"`. -/
theorem claim_c6_counterexample :
    get_model c6st0 "a_b" (some "v1") none = .ok (.single 0, c6st1) ∧
    dlookup c6st1.models "a_b_v1" = some (.single 0) ∧
    ((register_model c6st1 "a" "v9" "p" "resnet50" false "standard" "").toOption.map
      (fun s => dlookup s.models "a_b_v1")) = some none := by
  refine ⟨rfl, rfl, rfl⟩

/-- The demo registry after registering version `"v2"` for `"throat"`. -/
def c6wSt1 : RegState :=
  ((register_model demoSt "throat" "v2" "p2" "resnet50" false "standard" "").toOption).getD
    demoSt

/-- Witness for the amended C6 on the demo registry. -/
theorem claim_c6_amended_witness :
    (∀ k, pyStartswith k ("throat" ++ "_") = false →
      dlookup c6wSt1.models k = dlookup demoSt.models k) ∧
    (∀ k, pyStartswith k ("throat" ++ "_") = true →
      dlookup c6wSt1.models k = none) ∧
    ("throat" = "throat" → ∀ k, pyStartswith k "ear_" = true →
      dlookup c6wSt1.models k = dlookup demoSt.models k) :=
  claim_c6_amended demoSt "throat" "v2" "p2" "resnet50" false "standard" "" c6wSt1 rfl

/-! ## get_model caching (C7) -/

theorem load_single_model_ok (st : RegState) (info : RecordDict) (m : PyModel)
    (st1 : RegState) (h : load_single_model st info = .ok (m, st1)) :
    st1.registry = st.registry ∧ st1.default_models = st.default_models ∧
      st1.models = st.models := by
  cases hp : info.path with
  | none =>
    rw [load_single_model, hp] at h
    exact absurd h (by simp)
  | some p =>
    rw [load_single_model, hp] at h
    simp only [Except.ok.injEq, Prod.mk.injEq] at h
    obtain ⟨_, hst⟩ := h
    subst hst
    exact ⟨rfl, rfl, rfl⟩

theorem load_members_ok (registry : List (String × CategoryEntry)) (category : String) :
    ∀ (ms : List String) (st : RegState) (pairs : List (PyModel × RecordDict))
      (st1 : RegState),
      load_members registry category st ms = .ok (pairs, st1) →
      st1.registry = st.registry ∧ st1.default_models = st.default_models ∧
        st1.models = st.models := by
  intro ms
  induction ms with
  | nil =>
    intro st pairs st1 h
    simp only [load_members, Except.ok.injEq, Prod.mk.injEq] at h
    obtain ⟨_, hst⟩ := h
    subst hst
    exact ⟨rfl, rfl, rfl⟩
  | cons mv rest ih =>
    intro st pairs st1 h
    rw [load_members] at h
    by_cases hens : mv = "ensemble"
    · rw [if_pos hens] at h
      exact ih st pairs st1 h
    · rw [if_neg hens] at h
      cases hr : dlookup registry category with
      | none =>
        simp only [hr] at h
        exact absurd h (by simp)
      | some entry =>
        simp only [hr] at h
        cases hv : entry.versions with
        | none =>
          simp only [hv] at h
          exact absurd h (by simp)
        | some vs =>
          simp only [hv] at h
          cases hm : dlookup vs mv with
          | none =>
            simp only [hm] at h
            exact ih st pairs st1 h
          | some info =>
            simp only [hm] at h
            cases hL : load_single_model st info with
            | error e =>
              simp only [hL] at h
              exact absurd h (by simp)
            | ok p =>
              obtain ⟨mdl, stx⟩ := p
              simp only [hL] at h
              cases hR : load_members registry category stx rest with
              | error e =>
                simp only [hR] at h
                exact absurd h (by simp)
              | ok q =>
                obtain ⟨prs, st2⟩ := q
                simp only [hR] at h
                simp only [Except.ok.injEq, Prod.mk.injEq] at h
                obtain ⟨_, hst⟩ := h
                obtain ⟨h1, h2, h3⟩ := load_single_model_ok st info mdl stx hL
                obtain ⟨h4, h5, h6⟩ := ih stx prs st2 hR
                rw [← hst]
                exact ⟨h4.trans h1, h5.trans h2, h6.trans h3⟩

theorem load_ensemble_model_ok (st : RegState) (category : String)
    (info : RecordDict) (m : PyModel) (st1 : RegState)
    (h : load_ensemble_model st category info = .ok (m, st1)) :
    st1.registry = st.registry ∧ st1.default_models = st.default_models ∧
      st1.models = st.models := by
  cases hm : info.members with
  | none =>
    simp only [load_ensemble_model, hm] at h
    exact absurd h (by simp)
  | some members =>
    cases hw : info.weights with
    | none =>
      simp only [load_ensemble_model, hm, hw] at h
      exact absurd h (by simp)
    | some weights =>
      simp only [load_ensemble_model, hm, hw] at h
      by_cases hlen : members.length ≠ weights.length
      · rw [if_pos hlen] at h
        exact absurd h (by simp)
      · rw [if_neg hlen] at h
        cases hL : load_members st.registry category st members with
        | error e =>
          simp only [hL] at h
          exact absurd h (by simp)
        | ok p =>
          obtain ⟨pairs, stx⟩ := p
          simp only [hL] at h
          cases hE : ensemble_model_init pairs weights with
          | error e =>
            simp only [hE] at h
            exact absurd h (by simp)
          | ok mdl =>
            simp only [hE] at h
            simp only [Except.ok.injEq, Prod.mk.injEq] at h
            obtain ⟨_, hst⟩ := h
            rw [← hst]
            exact load_members_ok st.registry category members st pairs stx hL

theorem get_model_ok (st : RegState) (category : String)
    (version model_type : Option String) (m : PyModel) (st1 : RegState)
    (h : get_model st category version model_type = .ok (m, st1)) :
    st1.registry = st.registry ∧ st1.default_models = st.default_models ∧
      model_present st category (resolve_version st category version model_type) = true ∧
      dlookup st1.models
        (category ++ "_" ++ resolve_version st category version model_type) = some m := by
  rw [get_model] at h
  by_cases hp : model_present st category
      (resolve_version st category version model_type) = true
  · rw [if_pos hp] at h
    cases hc : dlookup st.models
        (category ++ "_" ++ resolve_version st category version model_type) with
    | some mdl =>
      simp only [hc] at h
      simp only [Except.ok.injEq, Prod.mk.injEq] at h
      obtain ⟨hm, hst⟩ := h
      subst hst
      exact ⟨rfl, rfl, hp, by rw [hc, hm]⟩
    | none =>
      simp only [hc] at h
      cases hr : dlookup st.registry category with
      | none =>
        simp only [hr] at h
        exact absurd h (by simp)
      | some entry =>
        simp only [hr] at h
        cases hv : entry.versions with
        | none =>
          simp only [hv] at h
          exact absurd h (by simp)
        | some vs =>
          simp only [hv] at h
          cases hi : dlookup vs
              (resolve_version st category version model_type) with
          | none =>
            simp only [hi] at h
            exact absurd h (by simp)
          | some info =>
            simp only [hi] at h
            by_cases harch : info.architecture = "ensemble"
            · rw [if_pos harch] at h
              cases hL : load_ensemble_model st category info with
              | error e =>
                simp only [hL] at h
                exact absurd h (by simp)
              | ok p =>
                obtain ⟨mdl, stx⟩ := p
                simp only [hL] at h
                simp only [Except.ok.injEq, Prod.mk.injEq] at h
                obtain ⟨hm, hst⟩ := h
                obtain ⟨h1, h2, h3⟩ := load_ensemble_model_ok st category info mdl stx hL
                subst hst
                refine ⟨h1, h2, hp, ?_⟩
                rw [dlookup_dinsert]
                simp [hm]
            · rw [if_neg harch] at h
              cases hL : load_single_model st info with
              | error e =>
                simp only [hL] at h
                exact absurd h (by simp)
              | ok p =>
                obtain ⟨mdl, stx⟩ := p
                simp only [hL] at h
                simp only [Except.ok.injEq, Prod.mk.injEq] at h
                obtain ⟨hm, hst⟩ := h
                obtain ⟨h1, h2, h3⟩ := load_single_model_ok st info mdl stx hL
                subst hst
                refine ⟨h1, h2, hp, ?_⟩
                rw [dlookup_dinsert]
                simp [hm]
  · rw [if_neg hp] at h
    exact absurd h (by simp)

/-- C7: two consecutive `get_model` calls for the same `(category, version)`
pair with no intervening mutation return the identical cached handle: the
second call hits the `_models` cache entry written by the first and returns
the very same object, with the state unchanged. -/
theorem claim_c7_cached_handle (st : RegState) (category v : String)
    (m : PyModel) (st1 : RegState)
    (h : get_model st category (some v) none = .ok (m, st1)) :
    get_model st1 category (some v) none = .ok (m, st1) := by
  obtain ⟨hreg, hdef, hpres, hcache⟩ :=
    get_model_ok st category (some v) none m st1 h
  have hres : resolve_version st category (some v) none = v := rfl
  have hres1 : resolve_version st1 category (some v) none = v := rfl
  have hpres1 : model_present st1 category v = true := by
    rw [model_present]
    rw [hreg]
    rw [hres] at hpres
    rw [model_present] at hpres
    exact hpres
  rw [hres] at hcache
  simp only [get_model, hres1, hpres1, if_true, hcache]

/-- The demo registry after the `("throat", "v1")` predictor was constructed
and cached under the flat key `"throat_v1"`. -/
def demoSt1 : RegState :=
  { demoSt with models := [("throat_v1", PyModel.single 0)], next_id := 1 }

/-- Witness for C7: on the demo registry the second `get_model` call returns
the handle cached by the first, with the state unchanged. -/
theorem claim_c7_cached_handle_witness :
    get_model demoSt1 "throat" (some "v1") none = .ok (.single 0, demoSt1) :=
  claim_c7_cached_handle demoSt "throat" "v1" (.single 0) demoSt1 rfl

/-! ## Ensemble loading with silent skips (C9) -/

/-- Elementwise vector addition (`ensemble_pred += pred`). -/
def vadd (xs ys : List ℚ) : List ℚ := List.zipWith (· + ·) xs ys

/-- `EnsembleModel.predict(x)` (enhanced_model_loader.py lines 426-453),
parametrized by an oracle giving each member's score vector: collect member
predictions, scale the `i`-th by `self.weights[i]` (an `IndexError` when the
weight list is shorter than the member list; `predictions[0]` an `IndexError`
when there are no members), and sum into `np.zeros_like(predictions[0])`. -/
def ensemble_predict (members : List PyModel) (weights : List ℚ)
    (oracle : PyModel → List ℚ) : Except PyError (List ℚ) :=
  let preds := members.map oracle
  match preds with
  | [] => .error .indexError
  | p0 :: _ =>
    if preds.length ≤ weights.length then
      .ok ((List.zipWith (fun w p => p.map (fun x => x * w)) weights preds).foldl
        vadd (List.replicate p0.length 0))
    else .error .indexError

/-- A member id that `_load_ensemble_model` actually loads: not the literal
`'ensemble'`, and resolving in the category's versions dict. -/
def loadable (vs : List (String × RecordDict)) (mv : String) : Bool :=
  mv != "ensemble" && (dlookup vs mv).isSome

def ensembleSize : PyModel → Option Nat
  | .ensembleM mdls _ _ => some mdls.length
  | _ => none

def ensembleWeights : PyModel → Option (List ℚ)
  | .ensembleM _ _ w => some w
  | _ => none

theorem zipWith_take_left {α β γ : Type} (f : α → β → γ) :
    ∀ (l2 : List β) (l1 : List α),
      List.zipWith f (l1.take l2.length) l2 = List.zipWith f l1 l2 := by
  intro l2
  induction l2 with
  | nil => intro l1; simp
  | cons b bs ih =>
    intro l1
    cases l1 with
    | nil => simp
    | cons a as =>
      simp only [List.length_cons, List.take_succ_cons, List.zipWith_cons_cons]
      rw [ih]

theorem load_members_spec (registry : List (String × CategoryEntry))
    (category : String) (entry : CategoryEntry) (vs : List (String × RecordDict))
    (hr : dlookup registry category = some entry) (hv : entry.versions = some vs) :
    ∀ (ms : List String),
      (∀ mv ∈ ms, mv ≠ "ensemble" → ∀ r, dlookup vs mv = some r → r.path.isSome) →
      ∀ st : RegState, ∃ (pairs : List (PyModel × RecordDict)) (st1 : RegState),
        load_members registry category st ms = .ok (pairs, st1) ∧
        pairs.length = (ms.filter (loadable vs)).length := by
  intro ms
  induction ms with
  | nil =>
    intro _ st
    exact ⟨[], st, rfl, rfl⟩
  | cons mv rest ih =>
    intro hres st
    have hres2 : ∀ x ∈ rest, x ≠ "ensemble" → ∀ r, dlookup vs x = some r → r.path.isSome :=
      fun x hx => hres x (List.mem_cons_of_mem mv hx)
    by_cases hens : mv = "ensemble"
    · obtain ⟨pairs, st1, hrun, hcnt⟩ := ih hres2 st
      refine ⟨pairs, st1, ?_, ?_⟩
      · rw [load_members, if_pos hens]
        exact hrun
      · rw [hcnt, List.filter_cons]
        have hl : loadable vs mv = false := by simp [loadable, hens]
        rw [hl]
        simp
    · cases hd : dlookup vs mv with
      | none =>
        obtain ⟨pairs, st1, hrun, hcnt⟩ := ih hres2 st
        refine ⟨pairs, st1, ?_, ?_⟩
        · rw [load_members, if_neg hens]
          simp only [hr, hv, hd]
          exact hrun
        · rw [hcnt, List.filter_cons]
          have hl : loadable vs mv = false := by simp [loadable, hd]
          rw [hl]
          simp
      | some info =>
        have hpath : info.path.isSome := hres mv (List.mem_cons_self mv rest) hens info hd
        rcases Option.isSome_iff_exists.mp hpath with ⟨p, hp⟩
        obtain ⟨pairs, st1, hrun, hcnt⟩ :=
          ih hres2 { st with next_id := st.next_id + 1 }
        refine ⟨(.single st.next_id, info) :: pairs, st1, ?_, ?_⟩
        · rw [load_members, if_neg hens]
          simp only [hr, hv, hd, load_single_model, hp, hrun]
        · rw [List.filter_cons]
          have hl : loadable vs mv = true := by simp [loadable, hens, hd]
          rw [hl]
          simp [hcnt]

/-- C9: when loading an Ensemble record whose member list and weight list
have equal length and whose weight sum is non-zero, any member id equal to
the literal `'ensemble'` or unresolved in the category is silently skipped —
no error is raised; the constructed `EnsembleModel` keeps the full original
weight list (renormalized by its sum), so its member count can be strictly
smaller than its weight count; and `predict` applies to the members only the
first `k` entries of that weight list (`k` = member count). -/
theorem claim_c9_silent_skips (st : RegState) (category : String)
    (info : RecordDict) (entry : CategoryEntry) (vs : List (String × RecordDict))
    (ms : List String) (ws : List ℚ)
    (hr : dlookup st.registry category = some entry)
    (hv : entry.versions = some vs)
    (hm : info.members = some ms) (hw : info.weights = some ws)
    (hlen : ms.length = ws.length) (hsum : ws.sum ≠ 0)
    (hres : ∀ mv ∈ ms, mv ≠ "ensemble" → ∀ r, dlookup vs mv = some r → r.path.isSome) :
    ((load_ensemble_model st category info).toOption.map
      (fun p => ensembleSize p.1)) =
      some (some ((ms.filter (loadable vs)).length)) ∧
    ((load_ensemble_model st category info).toOption.map
      (fun p => ensembleWeights p.1)) =
      some (some (ws.map (fun w => w / ws.sum))) ∧
    (∀ (mdls : List PyModel) (wts : List ℚ) (oracle : PyModel → List ℚ),
      mdls ≠ [] → mdls.length ≤ wts.length →
      ensemble_predict mdls wts oracle =
        ensemble_predict mdls (wts.take mdls.length) oracle) := by
  have hwne : ws ≠ [] := by
    intro h
    exact hsum (by rw [h]; rfl)
  obtain ⟨pairs, st1, hrun, hcnt⟩ :=
    load_members_spec st.registry category entry vs hr hv ms hres st
  have hnw : normalize_weights ws = .ok (ws.map (fun w => w / ws.sum)) := by
    rw [normalize_weights, if_neg, if_neg hsum]
    simp [List.isEmpty_iff, hwne]
  have hEI : ensemble_model_init pairs ws =
      .ok (.ensembleM (pairs.map Prod.fst) (pairs.map Prod.snd)
        (ws.map (fun w => w / ws.sum))) := by
    rw [ensemble_model_init, hnw]
  have hload : load_ensemble_model st category info =
      .ok (.ensembleM (pairs.map Prod.fst) (pairs.map Prod.snd)
        (ws.map (fun w => w / ws.sum)), st1) := by
    simp only [load_ensemble_model, hm, hw, hlen, ne_eq, not_true_eq_false,
      if_false, hrun, hEI]
  refine ⟨?_, ?_, ?_⟩
  · rw [hload]
    simp [Except.toOption, ensembleSize, hcnt]
  · rw [hload]
    simp [Except.toOption, ensembleWeights]
  · intro mdls wts oracle hne hle
    rw [ensemble_predict, ensemble_predict]
    have hplen : (mdls.map oracle).length = mdls.length := List.length_map mdls oracle
    cases hpreds : mdls.map oracle with
    | nil =>
      exact absurd (List.map_eq_nil_iff.mp hpreds) hne
    | cons p0 ps =>
      have hle1 : (mdls.map oracle).length ≤ wts.length := by rw [hplen]; exact hle
      have hle2 : (mdls.map oracle).length ≤ (wts.take mdls.length).length := by
        rw [hplen, List.length_take, le_min_iff]
        exact ⟨le_refl _, hle⟩
      rw [hpreds] at hle1 hle2
      simp only [hle1, hle2, if_true]
      have hzip : List.zipWith (fun w p => p.map (fun x => x * w)) wts (p0 :: ps) =
          List.zipWith (fun w p => p.map (fun x => x * w)) (wts.take mdls.length)
            (p0 :: ps) := by
        have hlen2 : mdls.length = (p0 :: ps).length := by
          rw [← hpreds]
          exact hplen.symm
        rw [hlen2]
        exact (zipWith_take_left _ (p0 :: ps) wts).symm
      rw [hzip]


/-- An ensemble record whose members are a loadable id, the literal
`'ensemble'`, and an unresolved id, with three weights. -/
def c9info : RecordDict :=
  { architecture := "ensemble", path := none, preprocessing := none,
    members := some ["v1", "ensemble", "missing"], weights := some [1, 2, 3],
    created_at := "" }

/-- Witness for C9 on the `c2st` registry: only one of the three members is
loaded, no error is raised, and all three renormalized weights are kept. -/
theorem claim_c9_silent_skips_witness :
    ((load_ensemble_model c2st "throat" c9info).toOption.map
      (fun p => ensembleSize p.1)) =
      some (some (((["v1", "ensemble", "missing"] : List String).filter
        (loadable [("v1", demoRecV1), ("e1", c2ens)])).length)) ∧
    ((load_ensemble_model c2st "throat" c9info).toOption.map
      (fun p => ensembleWeights p.1)) =
      some (some (([1, 2, 3] : List ℚ).map
        (fun w => w / ([1, 2, 3] : List ℚ).sum))) ∧
    (∀ (mdls : List PyModel) (wts : List ℚ) (oracle : PyModel → List ℚ),
      mdls ≠ [] → mdls.length ≤ wts.length →
      ensemble_predict mdls wts oracle =
        ensemble_predict mdls (wts.take mdls.length) oracle) :=
  claim_c9_silent_skips c2st "throat" c9info
    { versions := some [("v1", demoRecV1), ("e1", c2ens)],
      default_version := some "v1" }
    [("v1", demoRecV1), ("e1", c2ens)]
    ["v1", "ensemble", "missing"] [1, 2, 3]
    rfl rfl rfl rfl rfl
    (by norm_num [List.sum_cons, List.sum_nil])
    (by
      intro mv hmv hens r hr2
      simp only [List.mem_cons, List.not_mem_nil, or_false] at hmv
      rcases hmv with rfl | rfl | rfl
      · have hd : dlookup [("v1", demoRecV1), ("e1", c2ens)] "v1" =
            some demoRecV1 := rfl
        rw [hd] at hr2
        injection hr2 with h
        rw [← h]
        rfl
      · exact absurd rfl hens
      · have hd : dlookup [("v1", demoRecV1), ("e1", c2ens)] "missing" = none := rfl
        rw [hd] at hr2
        exact Option.noConfusion hr2)

/-! ## Index selection: ordering and stability (C3, C8) -/

instance scoreLE_total (preds : List ℚ) : IsTotal Nat (scoreLE preds) :=
  ⟨fun _ _ => le_total _ _⟩

instance scoreLE_trans (preds : List ℚ) : IsTrans Nat (scoreLE preds) :=
  ⟨fun _ _ _ h1 h2 => le_trans h1 h2⟩

/-- Ascending score with ties broken by ascending position: the order in
which a stable ascending argsort emits the indices. -/
def tieAsc (preds : List ℚ) (i j : Nat) : Prop :=
  preds.getD i 0 < preds.getD j 0 ∨ (preds.getD i 0 = preds.getD j 0 ∧ i < j)

theorem orderedInsert_tieAsc (preds : List ℚ) (a : Nat) :
    ∀ (l : List Nat), l.Pairwise (tieAsc preds) → (∀ b ∈ l, a < b) →
      (List.orderedInsert (scoreLE preds) a l).Pairwise (tieAsc preds) := by
  intro l
  induction l with
  | nil =>
    intro _ _
    simp [List.orderedInsert]
  | cons b l2 ih =>
    intro hp ha
    rw [List.pairwise_cons] at hp
    obtain ⟨hb, hl2⟩ := hp
    by_cases hr : scoreLE preds a b
    · rw [List.orderedInsert, if_pos hr]
      rw [List.pairwise_cons]
      constructor
      · intro c hc
        rcases List.mem_cons.mp hc with rfl | hc2
        · rcases lt_or_eq_of_le hr with h | h
          · exact Or.inl h
          · exact Or.inr ⟨h, ha c (List.mem_cons_self c l2)⟩
        · rcases hb c hc2 with h | ⟨heq, _⟩
          · rcases lt_or_eq_of_le hr with h1 | h1
            · exact Or.inl (lt_trans h1 h)
            · exact Or.inl (h1 ▸ h)
          · rcases lt_or_eq_of_le hr with h1 | h1
            · exact Or.inl (heq ▸ h1)
            · exact Or.inr ⟨h1.trans heq, ha c (List.mem_cons_of_mem b hc2)⟩
      · rw [List.pairwise_cons]
        exact ⟨hb, hl2⟩
    · rw [List.orderedInsert, if_neg hr]
      have hba : preds.getD b 0 < preds.getD a 0 := lt_of_not_le hr
      rw [List.pairwise_cons]
      constructor
      · intro c hc
        rcases (List.mem_orderedInsert (scoreLE preds)).mp hc with rfl | hc2
        · exact Or.inl hba
        · exact hb c hc2
      · exact ih hl2 (fun c hc => ha c (List.mem_cons_of_mem b hc))

theorem insertionSort_tieAsc (preds : List ℚ) :
    ∀ (l : List Nat), l.Pairwise (· < ·) →
      (List.insertionSort (scoreLE preds) l).Pairwise (tieAsc preds) := by
  intro l
  induction l with
  | nil =>
    intro _
    simp [List.insertionSort]
  | cons a l2 ih =>
    intro hp
    rw [List.pairwise_cons] at hp
    obtain ⟨ha, hl2⟩ := hp
    rw [List.insertionSort]
    refine orderedInsert_tieAsc preds a _ (ih hl2) ?_
    intro b hb
    exact ha b ((List.mem_insertionSort _).mp hb)

/-- The qualifying branch of `select_indices` in closed form. -/
theorem select_indices_qualifying (preds : List ℚ) (thr : ℚ)
    (hne : (List.range preds.length).filter (fun i => thr < preds.getD i 0) ≠ []) :
    select_indices preds thr =
      (List.insertionSort (scoreLE preds)
        ((List.range preds.length).filter (fun i => thr < preds.getD i 0))).reverse := by
  simp only [select_indices]
  rw [if_neg]
  intro h
  exact hne (List.length_eq_zero.mp h)

/-- The fallback branch of `select_indices` in closed form. -/
theorem select_indices_fallback (preds : List ℚ) (thr : ℚ)
    (hq : (List.range preds.length).filter (fun i => thr < preds.getD i 0) = []) :
    select_indices preds thr = ((argsortAsc preds).reverse).take 2 := by
  simp only [select_indices]
  rw [if_pos]
  rw [hq]
  rfl

/-- C8 (amended): when at least one index qualifies, the selected indices are
ordered by strictly descending score with ties in *reverse* catalog order
(larger index first): the source's ascending `np.argsort` is stable on these
sizes, and the `[::-1]` reversal therefore reverses each tied run. -/
theorem claim_c8_tie_order (preds : List ℚ) (thr : ℚ)
    (hne : (List.range preds.length).filter (fun i => thr < preds.getD i 0) ≠ []) :
    (select_indices preds thr).Pairwise
      (fun i j => preds.getD j 0 < preds.getD i 0 ∨
        (preds.getD j 0 = preds.getD i 0 ∧ j < i)) := by
  rw [select_indices_qualifying preds thr hne]
  rw [List.pairwise_reverse]
  exact insertionSort_tieAsc preds _
    ((List.pairwise_lt_range _).filter _)

/-- Counterexample to C8 as stated: scores `[1, 1, 0]` with threshold `0`
have the tied qualifying indices `0` and `1`; the claim's stable order would
return `[0, 1]`, but the code returns `[1, 0]`. -/
theorem claim_c8_counterexample :
    ((0 : ℚ) < ([1, 1, 0] : List ℚ).getD 0 0) ∧
    (([1, 1, 0] : List ℚ).getD 0 0 = ([1, 1, 0] : List ℚ).getD 1 0) ∧
    select_indices [1, 1, 0] 0 = [1, 0] ∧
    select_indices [1, 1, 0] 0 ≠ [0, 1] := by
  refine ⟨by decide, by decide, by decide, by decide⟩

/-- Witness for the amended C8 at the counterexample's input. -/
theorem claim_c8_tie_order_witness :
    (select_indices [1, 1, 0] 0).Pairwise
      (fun i j => ([1, 1, 0] : List ℚ).getD j 0 < ([1, 1, 0] : List ℚ).getD i 0 ∨
        (([1, 1, 0] : List ℚ).getD j 0 = ([1, 1, 0] : List ℚ).getD i 0 ∧ j < i)) :=
  claim_c8_tie_order [1, 1, 0] 0 (by decide)

theorem getD_le_one (preds : List ℚ) (hle : ∀ s ∈ preds, s ≤ 1) (i : Nat) :
    preds.getD i 0 ≤ 1 := by
  by_cases hi : i < preds.length
  · rw [List.getD_eq_get preds 0 hi]
    exact hle _ (List.get_mem _ _ _)
  · rw [List.getD_eq_default]
    · norm_num
    · omega

theorem argsort_rev_desc (preds : List ℚ) :
    ((argsortAsc preds).reverse).Pairwise
      (fun i j => preds.getD j 0 ≤ preds.getD i 0) := by
  simp only [argsortAsc]
  have h := List.sorted_insertionSort (scoreLE preds) (List.range preds.length)
  exact List.pairwise_reverse.mpr h

theorem argsort_rev_length (preds : List ℚ) :
    ((argsortAsc preds).reverse).length = preds.length := by
  rw [List.length_reverse]
  simp only [argsortAsc]
  rw [(List.perm_insertionSort _ _).length_eq, List.length_range]

theorem mem_argsort_rev (preds : List ℚ) (i : Nat) :
    i ∈ (argsortAsc preds).reverse ↔ i < preds.length := by
  rw [List.mem_reverse]
  simp only [argsortAsc]
  rw [List.mem_insertionSort, List.mem_range]

/-- The fallback top-2 dominates every unselected position. -/
theorem take2_top (preds : List ℚ) :
    ∀ j ∈ ((argsortAsc preds).reverse).take 2, ∀ i < preds.length,
      i ∉ ((argsortAsc preds).reverse).take 2 →
      preds.getD i 0 ≤ preds.getD j 0 := by
  intro j hj i hi hni
  have hpw := argsort_rev_desc preds
  have hmem : i ∈ (argsortAsc preds).reverse := (mem_argsort_rev preds i).mpr hi
  have hsplit : (argsortAsc preds).reverse =
      ((argsortAsc preds).reverse).take 2 ++ ((argsortAsc preds).reverse).drop 2 :=
    (List.take_append_drop 2 _).symm
  rw [hsplit] at hpw hmem
  obtain ⟨_, _, hcross⟩ := List.pairwise_append.mp hpw
  rcases List.mem_append.mp hmem with hmem1 | hmem2
  · exact absurd hmem1 hni
  · exact hcross j hj i hmem2

theorem analyze_filterMap_length (catalog : List ConditionLabel) (g : Nat → ℚ) :
    ∀ sel : List Nat, (∀ i ∈ sel, i < catalog.length) →
      (sel.filterMap
        (fun idx => (catalog.get? idx).map (fun c => enrich c (g idx)))).length =
        sel.length := by
  intro sel
  induction sel with
  | nil => intro _; rfl
  | cons i rest ih =>
    intro h
    have hi : i < catalog.length := h i (List.mem_cons_self _ _)
    have hg : catalog.get? i = some (catalog.get ⟨i, hi⟩) := List.get?_eq_get hi
    rw [List.filterMap_cons, hg]
    simp only [Option.map_some']
    rw [List.length_cons, ih (fun x hx => h x (List.mem_cons_of_mem _ hx))]
    rfl

theorem analyze_filterMap_pairwise (catalog : List ConditionLabel) (g : Nat → ℚ)
    (sel : List Nat) (h : sel.Pairwise (fun i j => g j ≤ g i)) :
    (sel.filterMap
      (fun idx => (catalog.get? idx).map (fun c => enrich c (g idx)))).Pairwise
      (fun r1 r2 => r2.confidence ≤ r1.confidence) := by
  rw [List.pairwise_filterMap]
  refine h.imp ?_
  intro i j hij b hb b' hb'
  simp only [Option.mem_def, Option.map_eq_some'] at hb hb'
  obtain ⟨c, _, hc2⟩ := hb
  obtain ⟨c', _, hc2'⟩ := hb'
  rw [← hc2, ← hc2']
  show (enrich c' (g j)).confidence ≤ (enrich c (g i)).confidence
  have h1 : (enrich c' (g j)).confidence = g j := rfl
  have h2 : (enrich c (g i)).confidence = g i := rfl
  rw [h1, h2]
  exact hij

/-- C3: `classify`'s selection step picks exactly the indices whose score
strictly exceeds the threshold, in descending-score order; when none qualify
it returns the top 2 indices of the descending argsort (which dominate every
unselected score); with an unreachable threshold `1.1` over scores in
`[0, 1]` aligned with the catalog, exactly 2 results come back in
descending-confidence order; and on scores `[0.2, 0.05, 0.9]` with threshold
`0.15` over a 3-label catalog the results are the labels at indices `2` then
`0` — index `1` never appears. -/
theorem claim_c3_selection :
    (∀ (preds : List ℚ) (thr : ℚ),
      (List.range preds.length).filter (fun i => thr < preds.getD i 0) ≠ [] →
      ((select_indices preds thr).Perm
        ((List.range preds.length).filter (fun i => thr < preds.getD i 0)) ∧
       (select_indices preds thr).Pairwise
        (fun i j => preds.getD j 0 ≤ preds.getD i 0))) ∧
    (∀ (preds : List ℚ) (thr : ℚ),
      (List.range preds.length).filter (fun i => thr < preds.getD i 0) = [] →
      (select_indices preds thr = ((argsortAsc preds).reverse).take 2 ∧
       (select_indices preds thr).Pairwise
        (fun i j => preds.getD j 0 ≤ preds.getD i 0) ∧
       (∀ j ∈ select_indices preds thr, ∀ i < preds.length,
         i ∉ select_indices preds thr → preds.getD i 0 ≤ preds.getD j 0))) ∧
    (∀ (preds : List ℚ) (catalog : List ConditionLabel),
      preds.length = catalog.length → 2 ≤ preds.length →
      (∀ s ∈ preds, s ≤ 1) →
      ((analyze_results preds (11/10) catalog).length = 2 ∧
       (analyze_results preds (11/10) catalog).Pairwise
        (fun r1 r2 => r2.confidence ≤ r1.confidence))) ∧
    (∀ c0 c1 c2 : ConditionLabel,
      analyze_results [1/5, 1/20, 9/10] (3/20) [c0, c1, c2] =
        [enrich c2 (9/10), enrich c0 (1/5)]) := by
  have hfallback_pw : ∀ (preds : List ℚ) (thr : ℚ),
      (List.range preds.length).filter (fun i => thr < preds.getD i 0) = [] →
      (select_indices preds thr).Pairwise
        (fun i j => preds.getD j 0 ≤ preds.getD i 0) := by
    intro preds thr hq
    rw [select_indices_fallback preds thr hq]
    exact (argsort_rev_desc preds).sublist (List.take_sublist 2 _)
  refine ⟨?_, ?_, ?_, ?_⟩
  · intro preds thr hne
    constructor
    · rw [select_indices_qualifying preds thr hne]
      exact (List.reverse_perm _).trans (List.perm_insertionSort _ _)
    · rw [select_indices_qualifying preds thr hne]
      have h := List.sorted_insertionSort (scoreLE preds)
        ((List.range preds.length).filter (fun i => thr < preds.getD i 0))
      exact List.pairwise_reverse.mpr h
  · intro preds thr hq
    refine ⟨select_indices_fallback preds thr hq, hfallback_pw preds thr hq, ?_⟩
    rw [select_indices_fallback preds thr hq]
    exact take2_top preds
  · intro preds catalog hlen h2 hle
    have hq : (List.range preds.length).filter
        (fun i => (11/10 : ℚ) < preds.getD i 0) = [] := by
      rw [List.filter_eq_nil]
      intro i _
      simp only [decide_eq_true_eq, not_lt]
      calc preds.getD i 0 ≤ 1 := getD_le_one preds hle i
        _ ≤ 11/10 := by norm_num
    have hsel := select_indices_fallback preds (11/10) hq
    have hbound : ∀ i ∈ select_indices preds (11/10), i < catalog.length := by
      intro i hi
      rw [hsel] at hi
      have : i ∈ (argsortAsc preds).reverse :=
        (List.take_sublist 2 _).mem hi
      rw [← hlen]
      exact (mem_argsort_rev preds i).mp this
    constructor
    · show ((select_indices preds (11/10)).filterMap _).length = 2
      rw [analyze_filterMap_length catalog (fun idx => preds.getD idx 0) _ hbound]
      rw [hsel, List.length_take, argsort_rev_length]
      exact min_eq_left h2
    · exact analyze_filterMap_pairwise catalog (fun idx => preds.getD idx 0) _
        (hfallback_pw preds (11/10) hq)
  · intro c0 c1 c2
    have hsel : select_indices [1/5, 1/20, 9/10] (3/20) = [2, 0] := by
      norm_num [select_indices, argsortAsc, scoreLE, List.insertionSort,
        List.orderedInsert, List.range_succ, List.getD_cons_zero,
        List.getD_cons_succ]
    show (select_indices [1/5, 1/20, 9/10] (3/20)).filterMap _ = _
    rw [hsel]
    simp only [List.filterMap_cons, List.filterMap_nil]
    norm_num [List.getD_cons_zero, List.getD_cons_succ]

/-- A concrete catalog label for witnesses. -/
def demoLabel : ConditionLabel :=
  { id := "strep_throat", name := "Strep Throat", isPotentiallySerious := true,
    treatmentInfo := none }

/-- Witness for C3: the four parts instantiated at concrete inputs. -/
theorem claim_c3_selection_witness :
    ((select_indices [1, 0] 0).Perm
        ((List.range ([1, 0] : List ℚ).length).filter
          (fun i => (0 : ℚ) < ([1, 0] : List ℚ).getD i 0)) ∧
      (select_indices [1, 0] 0).Pairwise
        (fun i j => ([1, 0] : List ℚ).getD j 0 ≤ ([1, 0] : List ℚ).getD i 0)) ∧
    (select_indices [0, 0] 1 = ((argsortAsc [0, 0]).reverse).take 2 ∧
      (select_indices [0, 0] 1).Pairwise
        (fun i j => ([0, 0] : List ℚ).getD j 0 ≤ ([0, 0] : List ℚ).getD i 0) ∧
      (∀ j ∈ select_indices [0, 0] 1, ∀ i < ([0, 0] : List ℚ).length,
        i ∉ select_indices [0, 0] 1 →
        ([0, 0] : List ℚ).getD i 0 ≤ ([0, 0] : List ℚ).getD j 0)) ∧
    ((analyze_results [1, 0] (11/10) [demoLabel, demoLabel]).length = 2 ∧
      (analyze_results [1, 0] (11/10) [demoLabel, demoLabel]).Pairwise
        (fun r1 r2 => r2.confidence ≤ r1.confidence)) ∧
    (analyze_results [1/5, 1/20, 9/10] (3/20) [demoLabel, demoLabel, demoLabel] =
      [enrich demoLabel (9/10), enrich demoLabel (1/5)]) :=
  ⟨claim_c3_selection.1 [1, 0] 0 (by decide),
    claim_c3_selection.2.1 [0, 0] 1 (by decide),
    claim_c3_selection.2.2.1 [1, 0] [demoLabel, demoLabel] rfl (by decide) (by decide),
    claim_c3_selection.2.2.2 demoLabel demoLabel demoLabel⟩
